import Mathlib

/-!
Shallow embedding of the Qualification-Data-Manager review tool
(`data_manager.py`, `app.py`, `utils.py`).

A loaded table is a list of rows paired with their pandas integer index
(positional identity, assigned at load time).  A row's `score` is
`Option Rat`: `none` stands for a missing value (pandas `NaN`, for which
every `>=`/`<=` comparison is `False`), `some v` for a float value; exact
rationals stand in for the floats since only order comparisons occur.
`cells` holds the string form of all of the row's columns
(`DataFrame.astype(str)`), which is what the free-text search scans.
-/

namespace MappedDataReviewer

structure Row where
  language : String
  qualification_name : String
  score : Option Rat
  cells : List String
deriving DecidableEq, Repr

/-- A table: rows tagged with their pandas index. -/
abbrev Table := List (Nat × Row)

/-- `DataManager` state: the loaded table (`self.data`, `None` before any
load) and the set of reviewed row indices (`self.reviewed_items`). -/
structure DataManager where
  data : Option Table
  reviewed_items : Finset Nat
deriving DecidableEq

/-- An uploaded frame.  `hasScore` records whether a `score` column is
present; when it is absent every row's `score` field is `none`. -/
structure Frame where
  hasScore : Bool
  rows : Table
deriving DecidableEq

/-- `DataManager.load_data`: copies the frame in; a present `score` column
has already been through `pd.to_numeric(..., errors='coerce')` (which our
`Option Rat` representation captures: unconvertible cells are `none`);
an absent `score` column is created holding the constant `0.5`. -/
def load_data (dm : DataManager) (df : Frame) : DataManager :=
  { dm with data := some (
      if df.hasScore then df.rows
      else df.rows.map (fun p => (p.1, { p.2 with score := some 0.5 }))) }

/-- `DataManager.mark_reviewed`: `self.reviewed_items.add(row_index)`. -/
def mark_reviewed (dm : DataManager) (row_index : Nat) : DataManager :=
  { dm with reviewed_items := insert row_index dm.reviewed_items }

/-- `DataManager.unmark_reviewed`: `self.reviewed_items.discard(row_index)`. -/
def unmark_reviewed (dm : DataManager) (row_index : Nat) : DataManager :=
  { dm with reviewed_items := dm.reviewed_items.erase row_index }

/-- `DataManager.is_reviewed`: `row_index in self.reviewed_items`. -/
def is_reviewed (dm : DataManager) (row_index : Nat) : Bool :=
  decide (row_index ∈ dm.reviewed_items)

/-!
### Free-text search (`Series.str.contains(term, case=False, na=False)`)

pandas `str.contains` treats the search term as a *regular expression*
(`regex=True` is the default) and runs `re.search` on each cell with
`re.IGNORECASE`.  We model the fragment of Python regular expressions in
which `'.'` matches any single character and every other character of the
pattern matches itself literally; this is faithful to Python `re` for all
patterns that contain no metacharacter other than `'.'`.  IGNORECASE is
modelled by comparing lowercased characters.
-/

/-- One token of the modelled regex fragment. -/
inductive RTok where
  | lit : Char → RTok
  | dot : RTok
deriving DecidableEq, Repr

/-- Compile a search term under the modelled fragment: `'.'` becomes the
any-character token, every other character a literal. -/
def parse_pat (s : String) : List RTok :=
  s.data.map (fun c => if c = '.' then RTok.dot else RTok.lit c)

/-- Does one token match one character (case-insensitively)? -/
def tokMatches (t : RTok) (c : Char) : Bool :=
  match t with
  | RTok.dot => true
  | RTok.lit a => a.toLower == c.toLower

/-- Does the whole pattern match a prefix of `s`? (anchored match) -/
def matchHere : List RTok → List Char → Bool
  | [], _ => true
  | _ :: _, [] => false
  | t :: ts, c :: cs => tokMatches t c && matchHere ts cs

/-- `re.search`: does the pattern match starting at some position of `s`? -/
def re_search (pat : List RTok) : List Char → Bool
  | [] => matchHere pat []
  | c :: cs => matchHere pat (c :: cs) || re_search pat cs

/-- One row of the search mask: does any column's string form match the
term (`.any(axis=1)` over `str.contains(term, case=False, na=False)`)? -/
def row_matches (term : String) (r : Row) : Bool :=
  r.cells.any (fun cell => re_search (parse_pat term) cell.data)

/-!
### The filter pipeline (`DataManager.filter_data`)

Each stage corresponds to one block of `filter_data`; a stage whose
parameter is at its default (empty list / absent keys / falsy string)
leaves the table unchanged, exactly as the guarding `if` in the source.
-/

/-- Filter parameters as passed to `filter_data(**filters)`.
`score_range = some (lo, hi)` models both `score_min` and `score_max`
keys being present; `review_status` carries the status string
(`'reviewed'`, `'not_reviewed'`, or anything else such as `'All'`). -/
structure Filters where
  languages : List String
  qualifications : List String
  score_range : Option (Rat × Rat)
  review_status : String
  search_term : String

/-- `filtered_df[filtered_df['language'].isin(filters['languages'])]`,
applied only when the language list is non-empty (truthy). -/
def language_filter (langs : List String) (rows : Table) : Table :=
  if langs = [] then rows
  else rows.filter (fun p => langs.contains p.2.language)

/-- `filtered_df[filtered_df['qualification_name'].isin(...)]`, applied
only when the qualification list is non-empty. -/
def qualification_filter (quals : List String) (rows : Table) : Table :=
  if quals = [] then rows
  else rows.filter (fun p => quals.contains p.2.qualification_name)

/-- `(score >= lo) & (score <= hi)` on one cell; a missing score (`NaN`)
compares `False` on both sides, as in pandas. -/
def score_between (lo hi : Rat) (s : Option Rat) : Bool :=
  match s with
  | some v => decide (lo ≤ v) && decide (v ≤ hi)
  | none => false

/-- The score-range block, applied only when both bound keys are present. -/
def score_filter (range : Option (Rat × Rat)) (rows : Table) : Table :=
  match range with
  | none => rows
  | some (lo, hi) => rows.filter (fun p => score_between lo hi p.2.score)

/-- The review-status block: keep members for `'reviewed'`, non-members
for `'not_reviewed'`, everything otherwise. -/
def review_filter (status : String) (reviewed : Finset Nat) (rows : Table) : Table :=
  if status = "reviewed" then rows.filter (fun p => decide (p.1 ∈ reviewed))
  else if status = "not_reviewed" then rows.filter (fun p => decide (p.1 ∉ reviewed))
  else rows

/-- The search block, applied only when the term is non-empty (truthy). -/
def search_filter (term : String) (rows : Table) : Table :=
  if term = "" then rows
  else rows.filter (fun p => row_matches term p.2)

/-- `DataManager.filter_data`: returns an empty frame when no data is
loaded, otherwise applies the five stages in source order. -/
def filter_data (dm : DataManager) (f : Filters) : Table :=
  match dm.data with
  | none => []
  | some rows =>
      search_filter f.search_term
        (review_filter f.review_status dm.reviewed_items
          (score_filter f.score_range
            (qualification_filter f.qualifications
              (language_filter f.languages rows))))

/-- Every filter dimension at its default: no filter block fires. -/
def default_filters : Filters :=
  { languages := [], qualifications := [], score_range := none,
    review_status := "All", search_term := "" }

/-- The non-missing scores of a table, in order (what `df['score'].min()`
and `.max()` range over, since pandas aggregation skips `NaN`). -/
def scores_of (rows : Table) : List Rat :=
  rows.filterMap (fun p => p.2.score)

/-!
### Exports (`app.py` export block, `DataManager.export_data_with_review_status`)
-/

/-- `[idx for idx in filtered_df.index if idx in reviewed_items]`. -/
def reviewed_indices (filtered : Table) (reviewed : Finset Nat) : List Nat :=
  (filtered.map Prod.fst).filter (fun idx => decide (idx ∈ reviewed))

/-- `[idx for idx in filtered_df.index if idx not in reviewed_items]`. -/
def non_reviewed_indices (filtered : Table) (reviewed : Finset Nat) : List Nat :=
  (filtered.map Prod.fst).filter (fun idx => decide (idx ∉ reviewed))

/-- `DataManager.export_data_with_review_status`: picks the argument frame,
falling back to the loaded data, then to an empty frame; appends the
`reviewed_status` column (returned here as an aligned `List Bool`,
`none` when the column was not appended) only when the frame is
non-empty (`if not export_df.empty`). -/
def export_data_with_review_status (dm : DataManager) (filtered : Option Table) :
    Table × Option (List Bool) :=
  let export_df : Table :=
    match filtered with
    | some f => f
    | none =>
      match dm.data with
      | some d => d
      | none => []
  if export_df.isEmpty then (export_df, none)
  else (export_df, some (export_df.map (fun p => decide (p.1 ∈ dm.reviewed_items))))

/-!
### Pagination (`app.py` lines 253-270)

`items_per_page` comes from the menu `[10, 25, 50, 100]`;
`total_pages = max(1, (len(filtered_df) - 1) // items_per_page + 1)`
(Python `//` is floor division, hence `Int.fdiv`); the page number input
is clamped by the widget to `[1, total_pages]`; the displayed slice is
`filtered_df.iloc[start_idx:end_idx]`.
-/

/-- `max(1, (total - 1) // size + 1)`. -/
def total_pages (total size : Nat) : Int :=
  max 1 (Int.fdiv ((total : Int) - 1) (size : Int) + 1)

/-- `total_pages` as a natural number (it is always at least 1). -/
def total_pages_nat (total size : Nat) : Nat :=
  (total_pages total size).toNat

/-- The widget clamp of the requested page to `[1, total_pages]`. -/
def clamp_page (p : Int) (total size : Nat) : Int :=
  max 1 (min p (total_pages total size))

/-- `start_idx = (page-1)*size`, `end_idx = min(start_idx+size, total)`,
`page_data = filtered_df.iloc[start_idx:end_idx]`. -/
def page_slice (filtered : Table) (size page : Nat) : Table :=
  let start_idx := (page - 1) * size
  let end_idx := min (start_idx + size) filtered.length
  (filtered.take end_idx).drop start_idx

/-!
### App session state and upload handling (`app.py` lines 16-68)
-/

/-- Streamlit session state: the currently loaded frame and the reviewed
index set. -/
structure AppState where
  current_data : Option Frame
  reviewed_items : Finset Nat
deriving DecidableEq

/-- The upload handler: `pd.read_csv` either yields a frame (then
`st.session_state.current_data = df` and a success message) or raises
(then an error message is shown, `return` skips the rest, and the session
state is untouched).  The parse outcome is the `Except` argument; the
returned `Option String` is the surfaced error message, if any. -/
def handle_upload (s : AppState) (parsed : Except String Frame) : AppState × Option String :=
  match parsed with
  | Except.ok df => ({ s with current_data := some df }, none)
  | Except.error e => (s, some e)

/-!
### Spec-side definitions

These follow the specification's words, for comparison with the code-side
definitions above.
-/

/-- Spec-side reading of the text search: `term` occurs in `cell` as a
literal substring, case-insensitively. -/
def ci_substr (term cell : String) : Bool :=
  decide ((term.data.map Char.toLower) <:+: (cell.data.map Char.toLower))

/-- The regex metacharacters of Python `re`; a term avoiding all of them
is interpreted purely literally by `re.search`. -/
def regex_metachars : List Char :=
  ['.', '^', '$', '*', '+', '?', '\x7b', '\x7d', '[', ']', '\\', '|', '(', ')']

/-!
### Concrete sample data for witnesses and counterexamples
-/

/-- A manager whose row 3 is already marked reviewed. -/
def dmMarked : DataManager := { data := none, reviewed_items := {3} }

/-- A manager with nothing reviewed. -/
def dmBlank : DataManager := { data := none, reviewed_items := ∅ }

/-- A sample row whose single column reads "abc". -/
def rowAbc : Row :=
  { language := "EN", qualification_name := "q", score := none, cells := ["abc"] }

/-- A sample row containing the text "xABCy" in one column. -/
def rowHit : Row :=
  { language := "EN", qualification_name := "q", score := none, cells := ["xABCy"] }

/-- A sample row with score 0.7. -/
def rowScored : Row :=
  { language := "EN", qualification_name := "q", score := some 0.7, cells := ["a"] }

/-- A small three-row table. -/
def tblSmall : Table :=
  [(0, rowAbc), (1, rowHit), (2, rowScored)]

/-- An uploaded frame with no `score` column. -/
def frameNoScore : Frame :=
  { hasScore := false, rows := [(0, rowAbc), (1, rowHit)] }

end MappedDataReviewer

namespace MappedDataReviewer

/-!
## Theorems
-/

/-- C1 counterexample: if `id` is already a member of the ReviewSet,
`mark_reviewed id` followed by `unmark_reviewed id` does *not* restore its
membership: row 3 is reviewed beforehand and unreviewed afterwards. -/
theorem mark_unmark_not_roundtrip_on_member :
    is_reviewed (unmark_reviewed (mark_reviewed dmMarked 3) 3) 3 = false ∧
    is_reviewed dmMarked 3 = true := by decide

/-- C1 (amended): when `id` is not a member of the ReviewSet beforehand,
`mark_reviewed id` followed by `unmark_reviewed id` restores the
membership of `id` to its pre-mark state (the round trip always leaves
`id` unmarked). -/
theorem mark_unmark_roundtrip_of_not_member (dm : DataManager) (id : Nat)
    (h : is_reviewed dm id = false) :
    is_reviewed (unmark_reviewed (mark_reviewed dm id) id) id = is_reviewed dm id := by
  rw [h]
  simp [is_reviewed, unmark_reviewed, mark_reviewed]

/-- C1 witness: the amended round trip at a concrete non-member. -/
theorem mark_unmark_roundtrip_witness :
    is_reviewed dmBlank 0 = false ∧
    is_reviewed (unmark_reviewed (mark_reviewed dmBlank 0) 0) 0 = is_reviewed dmBlank 0 :=
  ⟨by decide, mark_unmark_roundtrip_of_not_member dmBlank 0 (by decide)⟩

/-- C3: loading a frame with no `score` column succeeds, gives every row
the fallback score 0.5, and the score-range filter subsequently keeps all
rows when `0.5 ∈ [lo, hi]` and none otherwise. -/
theorem missing_score_fallback (dm : DataManager) (df : Frame)
    (h : df.hasScore = false) (lo hi : Rat) :
    ∃ rows : Table, (load_data dm df).data = some rows ∧
      (∀ p ∈ rows, p.2.score = some 0.5) ∧
      score_filter (some (lo, hi)) rows
        = (if lo ≤ 0.5 ∧ 0.5 ≤ hi then rows else []) := by
  refine ⟨df.rows.map (fun p => (p.1, { p.2 with score := some 0.5 })), ?_, ?_, ?_⟩
  · simp [load_data, h]
  · intro p hp
    rcases List.mem_map.mp hp with ⟨q, _, rfl⟩
    rfl
  · by_cases hin : lo ≤ 0.5 ∧ 0.5 ≤ hi
    · rw [if_pos hin]
      unfold score_filter
      apply List.filter_eq_self.mpr
      intro p hp
      rcases List.mem_map.mp hp with ⟨q, _, rfl⟩
      simp [score_between, hin.1, hin.2]
    · rw [if_neg hin]
      unfold score_filter
      apply List.filter_eq_nil_iff.mpr
      intro p hp
      rcases List.mem_map.mp hp with ⟨q, _, rfl⟩
      simp [score_between]
      intro hlo
      exact lt_of_not_le (fun hhi => hin ⟨hlo, hhi⟩)

/-- C3 witness: the fallback behaviour on a concrete scoreless frame. -/
theorem missing_score_fallback_witness :
    frameNoScore.hasScore = false ∧
    (∃ rows : Table, (load_data dmBlank frameNoScore).data = some rows ∧
      (∀ p ∈ rows, p.2.score = some 0.5) ∧
      score_filter (some (0, 1)) rows
        = (if (0 : Rat) ≤ 0.5 ∧ (0.5 : Rat) ≤ 1 then rows else [])) :=
  ⟨by decide, missing_score_fallback dmBlank frameNoScore (by decide) 0 1⟩

/-- C4: the reviewed-only and non-reviewed-only exports partition the
all-filtered export by identifier: their union is the full filtered index
list, they are disjoint, and an identifier is in the reviewed export iff
it is in the filtered view and in the ReviewSet. -/
theorem export_partition (filtered : Table) (reviewed : Finset Nat) :
    (∀ id : Nat,
        (id ∈ reviewed_indices filtered reviewed ∨
         id ∈ non_reviewed_indices filtered reviewed)
          ↔ id ∈ filtered.map Prod.fst) ∧
    (∀ id : Nat,
        ¬ (id ∈ reviewed_indices filtered reviewed ∧
           id ∈ non_reviewed_indices filtered reviewed)) ∧
    (∀ id : Nat,
        id ∈ reviewed_indices filtered reviewed
          ↔ (id ∈ filtered.map Prod.fst ∧ id ∈ reviewed)) := by
  refine ⟨fun id => ?_, fun id => ?_, fun id => ?_⟩ <;>
    simp [reviewed_indices, non_reviewed_indices, List.mem_filter] <;>
    tauto

/-- C4 witness: the export partition at a concrete filtered table and
ReviewSet `{1}`. -/
theorem export_partition_witness :
    (∀ id : Nat,
        (id ∈ reviewed_indices tblSmall {1} ∨
         id ∈ non_reviewed_indices tblSmall {1})
          ↔ id ∈ tblSmall.map Prod.fst) ∧
    (∀ id : Nat,
        ¬ (id ∈ reviewed_indices tblSmall {1} ∧
           id ∈ non_reviewed_indices tblSmall {1})) ∧
    (∀ id : Nat,
        id ∈ reviewed_indices tblSmall {1}
          ↔ (id ∈ tblSmall.map Prod.fst ∧ id ∈ ({1} : Finset Nat))) :=
  export_partition tblSmall {1}

/-- C7: with every filter at its default, `filter_data` returns the loaded
table unchanged (same rows, same order). -/
theorem default_filters_identity (dm : DataManager) (rows : Table)
    (h : dm.data = some rows) :
    filter_data dm default_filters = rows := by
  unfold filter_data
  rw [h]
  rfl

/-- C7 witness: the identity on a concrete loaded manager. -/
theorem default_filters_identity_witness :
    ({ data := some tblSmall, reviewed_items := ∅ } : DataManager).data = some tblSmall ∧
    filter_data { data := some tblSmall, reviewed_items := ∅ } default_filters = tblSmall :=
  ⟨rfl, default_filters_identity { data := some tblSmall, reviewed_items := ∅ } tblSmall rfl⟩

/-- C8: when CSV parsing fails, the upload handler surfaces the error and
leaves the whole session state — loaded table and ReviewSet — unchanged. -/
theorem upload_failure_preserves_state (s : AppState) (e : String) :
    handle_upload s (Except.error e) = (s, some e) := rfl

/-- C9: neither `load_data` nor a successful upload touches the ReviewSet:
membership of every identifier is unchanged by a load. -/
theorem load_preserves_review_set (dm : DataManager) (df : Frame)
    (s : AppState) (df2 : Frame) :
    (∀ id : Nat, id ∈ (load_data dm df).reviewed_items ↔ id ∈ dm.reviewed_items) ∧
    (∀ id : Nat,
        id ∈ (handle_upload s (Except.ok df2)).1.reviewed_items ↔ id ∈ s.reviewed_items) :=
  ⟨fun _ => Iff.rfl, fun _ => Iff.rfl⟩

/-- C10: `export_data_with_review_status` appends the `reviewed_status`
column (membership of each row's identifier in the ReviewSet) exactly when
the exported subset is non-empty; an empty subset, or no loaded table,
yields an empty frame with no appended column. -/
theorem export_review_status_column (dm : DataManager) (f : Table) :
    export_data_with_review_status dm (some f)
      = (f, if f.isEmpty then none
            else some (f.map (fun p => decide (p.1 ∈ dm.reviewed_items)))) ∧
    export_data_with_review_status { dm with data := none } none = ([], none) := by
  constructor
  · cases f <;> simp [export_data_with_review_status]
  · rfl

/-- C6: the score-range filter keeps exactly the rows whose score is
present and lies in `[lo, hi]` inclusively; with the bounds set to the
dataset minimum and maximum it keeps precisely the rows whose score is
non-missing. -/
theorem score_range_filter_inclusive (lo hi : Rat) (rows : Table) :
    (∀ p ∈ rows,
        (p ∈ score_filter (some (lo, hi)) rows ↔
          ∃ v, p.2.score = some v ∧ lo ≤ v ∧ v ≤ hi)) ∧
    (∀ mn mx : Rat,
        (scores_of rows).min? = some mn → (scores_of rows).max? = some mx →
        ∀ p ∈ rows,
          (p ∈ score_filter (some (mn, mx)) rows ↔ p.2.score ≠ none)) := by
  have hmem : ∀ (lo hi : Rat) (p : Nat × Row), p ∈ rows →
      (p ∈ score_filter (some (lo, hi)) rows ↔
        score_between lo hi p.2.score = true) := by
    intro lo hi p hp
    unfold score_filter
    rw [List.mem_filter]
    simp [hp]
  constructor
  · intro p hp
    rw [hmem lo hi p hp]
    cases hs : p.2.score with
    | none => simp [score_between]
    | some v => simp [score_between]
  · intro mn mx hmn hmx p hp
    rw [hmem mn mx p hp]
    cases hs : p.2.score with
    | none => simp [score_between]
    | some v =>
      haveI : Std.Antisymm ((· ≤ ·) : Rat → Rat → Prop) :=
        ⟨fun h1 h2 => le_antisymm h1 h2⟩
      have hvmem : v ∈ scores_of rows := List.mem_filterMap.mpr ⟨p, hp, hs⟩
      have h1 : mn ≤ v :=
        ((List.min?_eq_some_iff (fun a => le_refl a) (fun a b => min_choice a b)
          (fun a b c => le_min_iff)).mp hmn).2 v hvmem
      have h2 : v ≤ mx :=
        ((List.max?_eq_some_iff (fun a => le_refl a) (fun a b => max_choice a b)
          (fun a b c => max_le_iff)).mp hmx).2 v hvmem
      simp [score_between, h1, h2]

/-- C6 witness: both parts of the score-range property at a concrete
one-row table with score 0.7. -/
theorem score_range_filter_witness :
    ((0, rowScored) ∈ [(0, rowScored)] ∧
      ((0, rowScored) ∈ score_filter (some (0, 1)) [(0, rowScored)] ↔
        ∃ v, rowScored.score = some v ∧ (0 : Rat) ≤ v ∧ v ≤ 1)) ∧
    ((0, rowScored) ∈ score_filter (some (0.7, 0.7)) [(0, rowScored)] ↔
        rowScored.score ≠ none) :=
  ⟨⟨List.Mem.head _,
    (score_range_filter_inclusive 0 1 [(0, rowScored)]).1 (0, rowScored) (List.Mem.head _)⟩,
   (score_range_filter_inclusive 0.7 0.7 [(0, rowScored)]).2 0.7 0.7 rfl
     rfl (0, rowScored) (List.Mem.head _)⟩

/-- A term free of regex metacharacters compiles to all-literal tokens. -/
theorem parse_pat_of_no_meta (term : String)
    (h : ∀ c ∈ term.data, c ∉ regex_metachars) :
    parse_pat term = term.data.map RTok.lit := by
  unfold parse_pat
  apply List.map_congr_left
  intro c hc
  have hne : c ≠ '.' := by
    intro e
    exact h c hc (by rw [e]; decide)
  simp [hne]

/-- The anchored matcher on an all-literal pattern is a case-insensitive
prefix test. -/
theorem matchHere_lit (l : List Char) (s : List Char) :
    matchHere (l.map RTok.lit) s
      = (l.map Char.toLower).isPrefixOf (s.map Char.toLower) := by
  induction l generalizing s with
  | nil => cases s <;> rfl
  | cons a as ih =>
    cases s with
    | nil => rfl
    | cons b bs => simp [matchHere, tokMatches, List.isPrefixOf, ih]

/-- `re.search` with an all-literal pattern is a case-insensitive
substring test. -/
theorem re_search_lit (l : List Char) (s : List Char) :
    re_search (l.map RTok.lit) s
      = decide ((l.map Char.toLower) <:+: (s.map Char.toLower)) := by
  induction s with
  | nil =>
    rw [re_search, matchHere_lit]
    cases l with
    | nil => simp
    | cons a as => simp [List.isPrefixOf]
  | cons b bs ih =>
    rw [re_search, matchHere_lit, ih]
    rw [Bool.eq_iff_iff]
    simp [List.infix_cons_iff, List.isPrefixOf_iff_prefix]

/-- On metacharacter-free terms the search mask is exactly the literal
case-insensitive substring test over the row's columns. -/
theorem row_matches_of_no_meta (term : String) (r : Row)
    (h : ∀ c ∈ term.data, c ∉ regex_metachars) :
    row_matches term r = r.cells.any (fun cell => ci_substr term cell) := by
  unfold row_matches ci_substr
  rw [parse_pat_of_no_meta term h]
  simp only [re_search_lit]

/-- C2 counterexample: the search term "a.c" retains the row whose only
column reads "abc", although no column contains "a.c" as a literal
substring — `str.contains` interprets the term as a regular expression,
so the claimed substring characterization fails. -/
theorem search_regex_counterexample :
    search_filter "a.c" [(0, rowAbc)] = [(0, rowAbc)] ∧
    rowAbc.cells.any (fun cell => ci_substr "a.c" cell) = false := by decide

/-- C2 (amended): for a non-empty search term free of regex
metacharacters, the text-search filter retains a row iff the term occurs
case-insensitively as a literal substring of the string form of at least
one of its columns (OR across columns); terms containing metacharacters
are instead interpreted as regular expressions by `re.search`. -/
theorem search_literal_substring (term : String) (rows : Table) (p : Nat × Row)
    (hterm : term ≠ "") (hmeta : ∀ c ∈ term.data, c ∉ regex_metachars)
    (hp : p ∈ rows) :
    p ∈ search_filter term rows ↔
      p.2.cells.any (fun cell => ci_substr term cell) = true := by
  unfold search_filter
  rw [if_neg hterm, List.mem_filter, row_matches_of_no_meta term p.2 hmeta]
  simp [hp]

/-- C2 witness: the amended search characterization at the concrete term
"abc" and a row whose column reads "xABCy". -/
theorem search_literal_substring_witness :
    ("abc" ≠ "" ∧ (∀ c ∈ "abc".data, c ∉ regex_metachars) ∧
      (1, rowHit) ∈ [(1, rowHit)]) ∧
    ((1, rowHit) ∈ search_filter "abc" [(1, rowHit)] ↔
      rowHit.cells.any (fun cell => ci_substr "abc" cell) = true) :=
  ⟨⟨by decide, by decide, List.Mem.head _⟩,
   search_literal_substring "abc" [(1, rowHit)] (1, rowHit) (by decide) (by decide)
     (List.Mem.head _)⟩

/-- `max(1, (total-1)//size + 1)` as a natural number, split on `total`. -/
theorem total_pages_nat_eq (total size : Nat) (hs : 0 < size) :
    total_pages_nat total size
      = if total = 0 then 1 else (total - 1) / size + 1 := by
  unfold total_pages_nat total_pages
  rcases Nat.eq_zero_or_pos total with h0 | hpos
  · subst h0
    rw [if_pos rfl]
    obtain ⟨n, rfl⟩ : ∃ n, size = n + 1 := ⟨size - 1, by omega⟩
    have h1 : ((0 : Nat) : Int) - 1 = Int.negSucc 0 := by decide
    have h2 : Int.fdiv (Int.negSucc 0) ((n + 1 : Nat) : Int) = Int.negSucc 0 := by
      show Int.fdiv (Int.negSucc 0) (Int.ofNat (n + 1)) = Int.negSucc 0
      rw [Int.fdiv]
      simp
    rw [h1, h2]
    decide
  · rw [if_neg (by omega)]
    have h1 : ((total : Int) - 1) = ((total - 1 : Nat) : Int) := by
      have : (1 : Nat) ≤ total := hpos
      push_cast [this]
      ring
    rw [h1, Int.fdiv_eq_tdiv (Int.natCast_nonneg _) (Int.natCast_nonneg _),
      ← Int.ofNat_tdiv]
    have h2 : (1 : Int) ≤ (((total - 1) / size : Nat) : Int) + 1 := by
      linarith [Int.natCast_nonneg ((total - 1) / size)]
    rw [max_eq_right h2]
    omega

/-- The displayed page is always `size` consecutive rows (or whatever
remains) starting at `(page-1)*size`. -/
theorem page_slice_eq (xs : Table) (size page : Nat) :
    page_slice xs size page = (xs.drop ((page - 1) * size)).take size := by
  unfold page_slice
  rw [List.drop_take]
  apply List.take_eq_take.mpr
  rw [List.length_drop]
  generalize (page - 1) * size = s
  omega

/-- Concatenating the first `k` pages yields the first `k*size` rows. -/
theorem flatten_pages (xs : Table) (size k : Nat) :
    ((List.range k).map (fun i => (xs.drop (i * size)).take size)).flatten
      = xs.take (k * size) := by
  induction k with
  | zero => simp
  | succ k ih =>
    rw [List.range_succ, List.map_append, List.flatten_append, ih]
    simp only [List.map_cons, List.map_nil, List.flatten_cons, List.flatten_nil,
      List.append_nil]
    rw [Nat.succ_mul, List.take_add]

/-- The page count covers the whole table: `total_pages * size ≥ total`. -/
theorem total_pages_mul_ge (total size : Nat) (hs : 0 < size) :
    total ≤ total_pages_nat total size * size := by
  rw [total_pages_nat_eq total size hs]
  rcases Nat.eq_zero_or_pos total with h0 | hpos
  · simp [h0]
  · rw [if_neg (by omega)]
    obtain ⟨t, rfl⟩ : ∃ t, total = t + 1 := ⟨total - 1, by omega⟩
    simp only [Nat.add_sub_cancel]
    have h : (t / size + 1) * size = size * (t / size) + size := by ring
    have hdm := Nat.div_add_mod t size
    have hlt : t % size < size := Nat.mod_lt _ hs
    generalize hB : size * (t / size) = B at h hdm
    generalize hr : t % size = r at hdm hlt
    rw [h]
    omega

/-- `(total-1)/size + 1` is the ceiling `⌈total/size⌉` once `total ≥ 1`. -/
theorem pred_div_succ (n size : Nat) (hn : 0 < n) (hs : 0 < size) :
    (n - 1) / size + 1 = (n + size - 1) / size := by
  obtain ⟨t, rfl⟩ : ∃ t, n = t + 1 := ⟨n - 1, by omega⟩
  have h1 : t + 1 + size - 1 = t + size := by omega
  rw [Nat.add_sub_cancel, h1, Nat.add_div_right t hs]

/-- C5: for each of the menu page sizes, the requested page number is
clamped into `[1, total_pages]` (with `total_pages = ⌈total/size⌉` once
the table is non-empty), and concatenating the pages in order
reconstructs the filtered table exactly — including the empty table and
totals that are not multiples of the page size. -/
theorem pagination_pages_partition (filtered : Table) (size : Nat)
    (hsize : size = 10 ∨ size = 25 ∨ size = 50 ∨ size = 100) :
    (∀ p : Int, 1 ≤ clamp_page p filtered.length size ∧
        clamp_page p filtered.length size ≤ total_pages filtered.length size) ∧
    (0 < filtered.length →
        total_pages filtered.length size
          = (((filtered.length + size - 1) / size : Nat) : Int)) ∧
    (((List.range (total_pages_nat filtered.length size)).map
        (fun i => page_slice filtered size (i + 1))).flatten = filtered) := by
  have hs : 0 < size := by rcases hsize with h | h | h | h <;> omega
  refine ⟨fun p => ⟨le_max_left _ _, ?_⟩, ?_, ?_⟩
  · unfold clamp_page
    apply max_le
    · exact le_max_left 1 _
    · exact min_le_right _ _
  · intro hpos
    have hnat := total_pages_nat_eq filtered.length size hs
    rw [if_neg (by omega)] at hnat
    have hcast : total_pages filtered.length size
        = ((total_pages_nat filtered.length size : Nat) : Int) := by
      unfold total_pages_nat
      rw [Int.toNat_of_nonneg]
      exact le_trans (by norm_num) (le_max_left 1 _)
    rw [hcast, hnat]
    congr 1
    exact pred_div_succ filtered.length size hpos hs
  · simp only [page_slice_eq, Nat.add_sub_cancel]
    rw [flatten_pages]
    exact List.take_of_length_le (total_pages_mul_ge filtered.length size hs)

/-- C5 witness: page reconstruction at page size 10 on a concrete table. -/
theorem pagination_witness :
    (10 = 10 ∨ 10 = 25 ∨ 10 = 50 ∨ 10 = 100) ∧
    (((List.range (total_pages_nat tblSmall.length 10)).map
        (fun i => page_slice tblSmall 10 (i + 1))).flatten = tblSmall) :=
  ⟨Or.inl rfl, (pagination_pages_partition tblSmall 10 (Or.inl rfl)).2.2⟩

end MappedDataReviewer
